import Mathlib

/-!
Verification of the GUD ("Generic USB Display") gadget protocol engine.

The development shallowly embeds the two `recv_buffer` implementations
(`src/gadget/src/lib.rs` and `src/gud-gadget/src/lib.rs`), the wire codec for
`SetBuffer` and `DisplayMode`, and the control dispatcher's response tables.
Bytes are modelled as `Nat` (their values never overflow in the modelled
paths), byte buffers as `List Nat`, machine-integer division by zero and Rust
slice-indexing panics as explicit error branches of the result types.
-/

namespace Gud

/-! Byte-buffer primitives -/

/-- Overwrite position `i` of a byte buffer; out of range leaves the buffer
unchanged (call sites prove in-boundedness separately). -/
def setAt : List Nat → Nat → Nat → List Nat
  | [], _, _ => []
  | _ :: t, 0, v => v :: t
  | b :: t, i + 1, v => b :: setAt t i v

/-- Read position `i` of a byte buffer. -/
def nth : List Nat → Nat → Option Nat
  | [], _ => none
  | h :: _, 0 => some h
  | _ :: t, i + 1 => nth t i

/-- Copy the bytes of `src` into `fb` starting at byte offset `off`
(the model of one `copy_from_slice` call on consecutive offsets). -/
def writeBytes : List Nat → Nat → List Nat → List Nat
  | fb, _, [] => fb
  | fb, off, b :: rest => writeBytes (setAt fb off b) (off + 1) rest

/-! Protocol data model (both `lib.rs` files declare identical `SetBuffer`) -/

/-- `SetBuffer` (request 0x60 header): five `u32` fields, one `u8`, one `u32`. -/
structure SetBuffer where
  x : Nat
  y : Nat
  width : Nat
  height : Nat
  length : Nat
  compression : Nat
  compressedLength : Nat
deriving DecidableEq, Repr

/-- Outcome of one `recv_buffer` call.  Rust panics (integer division by zero,
slice index out of range, the explicit `panic!` on a length mismatch, `usize`
underflow of `remaining`) and the infinite busy loops are distinguished from
the `Ok(())` return and from recoverable `Err` returns. -/
inductive RecvResult where
  | ok (fb : List Nat)
  | blocked
  | divByZero
  | sizeMismatch (expected got : Nat)
  | oob
  | decompressFailed
  | underflow
  | stuck
deriving DecidableEq, Repr

/-! Accumulate-then-blit engine (`src/gadget/src/lib.rs`, lines 290-375) -/

/-- Target byte count of the bulk drain, from lines 301-305:
`if info.compression > 0 { info.compressed_length } else { info.length }`. -/
def gadgetTargetLen (info : SetBuffer) : Nat :=
  if 0 < info.compression then info.compressedLength else info.length

/-- Lines 315-328: `while self.buf.len() < len` pop one endpoint packet and
append it to the accumulation buffer.  `packets` is the sequence of successful
(non-`None`) endpoint reads; running out of packets models a host that stops
sending, which leaves the loop blocked in `recv`. -/
def drainLoop (len : Nat) : List (List Nat) → List Nat → Option (List Nat)
  | [], acc => if len ≤ acc.length then some acc else none
  | p :: ps, acc => if len ≤ acc.length then some acc else drainLoop len ps (acc ++ p)

/-- Lines 357-370, the row-copy loop (`while y < end_y`), with `rows` the number
of remaining iterations `end_y - y`.  Each iteration does
`fb[fb_start..fb_end].copy_from_slice(&buf[buf_pos..buf_pos + line_len])`;
the `if` guard models the bounds checks of both slice expressions, whose
failure is a Rust panic (`none`). -/
def blitLoop (fbPitch lineStart lineLen : Nat) (buf : List Nat) :
    Nat → Nat → Nat → List Nat → Option (List Nat)
  | 0, _, _, fb => some fb
  | rows + 1, y, bufPos, fb =>
    if y * fbPitch + lineStart + lineLen ≤ fb.length ∧ bufPos + lineLen ≤ buf.length then
      blitLoop fbPitch lineStart lineLen buf rows (y + 1) (bufPos + lineLen)
        (writeBytes fb (y * fbPitch + lineStart) ((buf.drop bufPos).take lineLen))
    else none

/-- `PixelDataEndpoint::recv_buffer` of `src/gadget/src/lib.rs` (lines 290-375).
`decompress` abstracts the external `lz4::block::decompress_to_buffer` call
(an external crate, exercised only when `info.compression > 0`); its `none`
models the `Err` that `.context("lz4 decompress")?` propagates.
The `bpp` division of line 299 panics when `width` or `height` is zero.
Line 358 computes `end_y = (info.y + info.height) as usize`, a `u32` addition
performed before the cast: in release builds it wraps modulo `2^32` (debug
builds panic), so the row loop runs `(y + height) mod 2^32 - y` iterations,
which is zero whenever the addition wraps. -/
def recvBufferGadget (decompress : List Nat → Nat → Option (List Nat))
    (info : SetBuffer) (fb : List Nat) (fbPitch : Nat)
    (packets : List (List Nat)) : RecvResult :=
  if info.width = 0 ∨ info.height = 0 then .divByZero
  else
    match drainLoop (gadgetTargetLen info) packets [] with
    | none => .blocked
    | some acc =>
      if acc.length ≠ gadgetTargetLen info then
        .sizeMismatch (gadgetTargetLen info) acc.length
      else
        match (if 0 < info.compression then decompress acc info.length else some acc) with
        | none => .decompressFailed
        | some buf =>
          match blitLoop fbPitch (info.x * (info.length / info.width / info.height))
              (info.width * (info.length / info.width / info.height)) buf
              ((info.y + info.height) % 4294967296 - info.y) info.y 0 fb with
          | none => .oob
          | some fb2 => .ok fb2

/-! Streaming per-line engine (`src/gud-gadget/src/lib.rs`, lines 276-324)

The Rust code walks the destination through reborrowed subslices
(`fb = &mut fb[..]`, `line = &mut fb[..]`); the embedding tracks the same
state with absolute offsets into the original framebuffer:
`fbOff` is the start of the current `fb` subslice, `lineAbs` the absolute
position of `line[0]`, `lineRem` the length of the current `line` slice,
and `fbLen` the length of the original framebuffer (slice bounds checks are
against `fbLen - fbOff`). -/

/-- Result of draining one packet through the inner `while data.len() > 0`
loop.  `oobSlice` is the panic of a failed subslice bound check, `stuck` the
infinite loop that the source enters when `line_width == 0` (the refreshed
`line` slice is empty again and no byte of `data` is ever consumed). -/
inductive InnerRes where
  | ok (fbOff lineAbs lineRem : Nat) (fb : List Nat)
  | oobSlice
  | stuck
  | fuelOut
deriving DecidableEq, Repr

/-- One source-loop iteration of lines 302-318 either refreshes the exhausted
`line` slice (lines 303-308) or copies `min(line.len(), data.len())` bytes
(lines 310-317).  `fuel` is structural-recursion gas: `innerLoop` supplies
`2 * data.length + 1`, which theorem `innerGo_fuel` style arguments show is
never exhausted (each iteration either consumes a byte or is immediately
followed by one that does). -/
def innerGo (fbPitch lineOffset lineWidth fbLen : Nat) :
    Nat → List Nat → Nat → Nat → Nat → List Nat → InnerRes
  | _, [], fbOff, lineAbs, lineRem, fb => .ok fbOff lineAbs lineRem fb
  | 0, _ :: _, _, _, _, _ => .fuelOut
  | fuel + 1, b :: data, fbOff, lineAbs, lineRem, fb =>
    if lineRem = 0 then
      if lineWidth = 0 then .stuck
      else if fbOff + fbPitch + lineOffset + lineWidth ≤ fbLen then
        innerGo fbPitch lineOffset lineWidth fbLen fuel (b :: data)
          (fbOff + fbPitch) (fbOff + fbPitch + lineOffset) lineWidth fb
      else .oobSlice
    else
      let n := min lineRem (b :: data).length
      innerGo fbPitch lineOffset lineWidth fbLen fuel ((b :: data).drop n)
        fbOff (lineAbs + n) (lineRem - n)
        (writeBytes fb lineAbs ((b :: data).take n))

/-- The inner `while data.len() > 0` loop of lines 302-318. -/
def innerLoop (fbPitch lineOffset lineWidth fbLen : Nat) (data : List Nat)
    (fbOff lineAbs lineRem : Nat) (fb : List Nat) : InnerRes :=
  innerGo fbPitch lineOffset lineWidth fbLen (2 * data.length + 1) data
    fbOff lineAbs lineRem fb

/-- The outer `while remaining > 0` loop of lines 292-321.  Each iteration
pops one successful endpoint read, does `remaining -= data.len()` (a `usize`
subtraction that underflows when the packet overshoots the declared length)
and feeds the packet through the inner loop. -/
def outerLoop (fbPitch lineOffset lineWidth fbLen : Nat) :
    List (List Nat) → Nat → Nat → Nat → Nat → List Nat → RecvResult
  | [], remaining, _, _, _, fb => if remaining = 0 then .ok fb else .blocked
  | data :: rest, remaining, fbOff, lineAbs, lineRem, fb =>
    if remaining = 0 then .ok fb
    else if data.length ≤ remaining then
      match innerLoop fbPitch lineOffset lineWidth fbLen data fbOff lineAbs lineRem fb with
      | .ok fbOff2 lineAbs2 lineRem2 fb2 =>
        outerLoop fbPitch lineOffset lineWidth fbLen rest (remaining - data.length)
          fbOff2 lineAbs2 lineRem2 fb2
      | .oobSlice => .oob
      | .stuck => .stuck
      | .fuelOut => .stuck
    else .underflow

/-- `PixelDataEndpoint::recv_buffer` of `src/gud-gadget/src/lib.rs`
(lines 276-324).  `remaining` starts at `info.length` (line 277) regardless of
`info.compression`; the `pixel_size` division of line 280 panics when `width`
or `height` is zero; lines 283 and 290 slice the framebuffer before any packet
is received (`oob` on a failed bound check). -/
def recvBufferStreaming (info : SetBuffer) (fb : List Nat) (fbPitch : Nat)
    (packets : List (List Nat)) : RecvResult :=
  if info.width = 0 ∨ info.height = 0 then .divByZero
  else
    if fbPitch * info.y + info.length / info.width / info.height * info.x
        + info.length / info.width / info.height * info.width ≤ fb.length then
      outerLoop fbPitch (info.length / info.width / info.height * info.x)
        (info.length / info.width / info.height * info.width) fb.length packets info.length
        (fbPitch * info.y)
        (fbPitch * info.y + info.length / info.width / info.height * info.x)
        (info.length / info.width / info.height * info.width) fb
    else .oob

/-- Absolute destination offset of payload byte `k` for a blit with row
width `lineWidth` bytes starting at row `y0` and column offset `lineOffset`:
byte `k` lands in row `k / lineWidth` at column `lineOffset + k % lineWidth`.
Common abstraction both engines are proved to realize. -/
def posOf (fbPitch y0 lineOffset lineWidth k : Nat) : Nat :=
  fbPitch * (y0 + k / lineWidth) + lineOffset + k % lineWidth

/-- Write the payload bytes one by one, byte `k + m` of the transfer at
destination offset `posOf fbPitch y0 lineOffset lineWidth (k + m)`. -/
def writeSeq (fbPitch y0 lineOffset lineWidth : Nat) : Nat → List Nat → List Nat → List Nat
  | _, [], fb => fb
  | k, b :: rest, fb =>
    writeSeq fbPitch y0 lineOffset lineWidth (k + 1) rest
      (setAt fb (posOf fbPitch y0 lineOffset lineWidth k) b)

/-- Streaming-engine state abstraction: absolute offset of the current `fb`
subslice after `k` payload bytes have been copied.  When `k` is a positive
multiple of the row width the source has finished a row but not yet advanced
(`line` is empty and the refresh is pending), so `fb` still points at the
finished row. -/
def sFbOff (fbPitch y0 lineWidth k : Nat) : Nat :=
  if k % lineWidth = 0 ∧ k ≠ 0 then fbPitch * (y0 + k / lineWidth - 1)
  else fbPitch * (y0 + k / lineWidth)

/-- Streaming-engine state abstraction: absolute offset of `line[0]` after `k`
payload bytes. -/
def sLineAbs (fbPitch y0 lineOffset lineWidth k : Nat) : Nat :=
  if k % lineWidth = 0 ∧ k ≠ 0 then
    fbPitch * (y0 + k / lineWidth - 1) + lineOffset + lineWidth
  else fbPitch * (y0 + k / lineWidth) + lineOffset + k % lineWidth

/-- Streaming-engine state abstraction: remaining length of the `line` slice
after `k` payload bytes. -/
def sLineRem (lineWidth k : Nat) : Nat :=
  if k % lineWidth = 0 ∧ k ≠ 0 then 0 else lineWidth - k % lineWidth

/-! Wire codec

Both crates marshal through the external `ssmarshal` crate, which is not part
of this repository.  Modelled from the spec: "deterministic, fixed-size ...
encode each integer field at its natural little-endian width" and "Decoding
`SetBuffer` from a received payload must fail explicitly (not silently
truncate) if the payload is shorter than the fixed structure size"
(the fixed `SetBuffer` wire size is 25 bytes, `DisplayMode` is 24). -/

/-- Read one little-endian `u32` (4 bytes); fails on fewer than 4 bytes. -/
def readU32LE : List Nat → Option (Nat × List Nat)
  | b0 :: b1 :: b2 :: b3 :: rest =>
    some (b0 + 256 * b1 + 65536 * b2 + 16777216 * b3, rest)
  | _ => none

/-- Read one little-endian `u16` (2 bytes); fails on fewer than 2 bytes. -/
def readU16LE : List Nat → Option (Nat × List Nat)
  | b0 :: b1 :: rest => some (b0 + 256 * b1, rest)
  | _ => none

/-- Read one `u8`; fails on an empty input. -/
def readU8 : List Nat → Option (Nat × List Nat)
  | b :: rest => some (b, rest)
  | [] => none

/-- Little-endian bytes of a `u16` value. -/
def u16LE (n : Nat) : List Nat := [n % 256, n / 256 % 256]

/-- Little-endian bytes of a `u32` value. -/
def u32LE (n : Nat) : List Nat :=
  [n % 256, n / 256 % 256, n / 65536 % 256, n / 16777216 % 256]

/-- Modelled from the spec: the `ssmarshal::deserialize::<SetBuffer>` call of
the set-buffer dispatcher branch (field order and widths from the `SetBuffer`
declaration shared by both `lib.rs` files).  Returns the decoded value and the
unread remainder, or `none` when the payload is shorter than 25 bytes. -/
def deserializeSetBuffer (bytes : List Nat) : Option (SetBuffer × List Nat) :=
  match readU32LE bytes with
  | none => none
  | some (x, r1) =>
  match readU32LE r1 with
  | none => none
  | some (y, r2) =>
  match readU32LE r2 with
  | none => none
  | some (w, r3) =>
  match readU32LE r3 with
  | none => none
  | some (h, r4) =>
  match readU32LE r4 with
  | none => none
  | some (len, r5) =>
  match readU8 r5 with
  | none => none
  | some (comp, r6) =>
  match readU32LE r6 with
  | none => none
  | some (clen, r7) => some (⟨x, y, w, h, len, comp, clen⟩, r7)

/-- The `GUD_REQ_SET_BUFFER` branch of the event dispatcher
(`src/gadget/src/lib.rs` lines 255-262, `src/gud-gadget/src/lib.rs` lines
254-260): deserialize the drained control payload; the `?` propagates a
decode failure as an `Err` return of the event function. -/
def handleSetBuffer (payload : List Nat) : Option SetBuffer :=
  match deserializeSetBuffer payload with
  | some (v, _) => some v
  | none => none

/-! DisplayMode codec and `send_modes` -/

/-- `DisplayMode` with the field order of `src/gadget/src/lib.rs` (lines
63-75); `ssmarshal` lays the fields out in declaration order. -/
structure DisplayMode where
  clock : Nat
  hdisplay : Nat
  hsync_start : Nat
  hsync_end : Nat
  htotal : Nat
  vdisplay : Nat
  vsync_start : Nat
  vsync_end : Nat
  vtotal : Nat
  flags : Nat
deriving DecidableEq, Repr

/-- Field values fit their declared machine-integer widths
(`clock`, `flags` are `u32`, the timing fields `u16`). -/
abbrev DisplayMode.valid (m : DisplayMode) : Prop :=
  m.clock < 4294967296 ∧ m.hdisplay < 65536 ∧ m.hsync_start < 65536 ∧
  m.hsync_end < 65536 ∧ m.htotal < 65536 ∧ m.vdisplay < 65536 ∧
  m.vsync_start < 65536 ∧ m.vsync_end < 65536 ∧ m.vtotal < 65536 ∧
  m.flags < 4294967296

/-- Modelled from the spec: the fixed 24-byte little-endian layout that
`ssmarshal::serialize` emits for one `DisplayMode` record. -/
def serializeDisplayMode (m : DisplayMode) : List Nat :=
  u32LE m.clock ++ u16LE m.hdisplay ++ u16LE m.hsync_start ++ u16LE m.hsync_end ++
  u16LE m.htotal ++ u16LE m.vdisplay ++ u16LE m.vsync_start ++ u16LE m.vsync_end ++
  u16LE m.vtotal ++ u32LE m.flags

/-- `GetDisplayModesRequest::send_modes` (lines 135-152 of
`src/gadget/src/lib.rs`): `24 * modes.len()` bytes are serialized record after
record into one buffer; exceeding `self.sender.len()` (the host's response
budget) is the `panic!("too many display modes provided")`, modelled `none`. -/
def sendModes (senderLen : Nat) (modes : List DisplayMode) : Option (List Nat) :=
  if senderLen < 24 * modes.length then none
  else some ((modes.map serializeDisplayMode).flatten)

/-- Decode one 24-byte `DisplayMode` record field by field. -/
def decodeDisplayMode (bytes : List Nat) : Option (DisplayMode × List Nat) :=
  match readU32LE bytes with
  | none => none
  | some (clock, r1) =>
  match readU16LE r1 with
  | none => none
  | some (hdisplay, r2) =>
  match readU16LE r2 with
  | none => none
  | some (hsyncStart, r3) =>
  match readU16LE r3 with
  | none => none
  | some (hsyncEnd, r4) =>
  match readU16LE r4 with
  | none => none
  | some (htotal, r5) =>
  match readU16LE r5 with
  | none => none
  | some (vdisplay, r6) =>
  match readU16LE r6 with
  | none => none
  | some (vsyncStart, r7) =>
  match readU16LE r7 with
  | none => none
  | some (vsyncEnd, r8) =>
  match readU16LE r8 with
  | none => none
  | some (vtotal, r9) =>
  match readU32LE r9 with
  | none => none
  | some (flags, r10) =>
    some (⟨clock, hdisplay, hsyncStart, hsyncEnd, htotal, vdisplay,
           vsyncStart, vsyncEnd, vtotal, flags⟩, r10)

/-- Decode exactly `n` consecutive records. -/
def decodeModesN : Nat → List Nat → Option (List DisplayMode)
  | 0, [] => some []
  | 0, _ :: _ => none
  | n + 1, bytes =>
    match decodeDisplayMode bytes with
    | none => none
    | some (m, rest) => (decodeModesN n rest).map (fun tl => m :: tl)

/-- Decode a whole mode-list response (a multiple of 24 bytes). -/
def decodeModes (bytes : List Nat) : Option (List DisplayMode) :=
  decodeModesN (bytes.length / 24) bytes

/-! Control dispatcher, device-to-host request table -/

def GUD_PIXEL_FORMAT_RGB565 : Nat := 0x40

def GUD_PIXEL_FORMAT_RGB888 : Nat := 0x50

def GUD_PIXEL_FORMAT_XRGB8888 : Nat := 0x80

def GUD_STATUS_OK : Nat := 0

def GUD_CONNECTOR_STATUS_CONNECTED : Nat := 0x01

/-- Immediate reply of a `SetupDeviceToHost` branch: bytes sent on the spot, a
pending-request handle yielded to the caller, or the logged-and-ignored fall
through for unknown request codes. -/
inductive CtrlReply where
  | send (bytes : List Nat)
  | pendingDescriptor
  | pendingModes
  | unhandled
deriving DecidableEq, Repr

/-- The `SetupDeviceToHost` match of `src/gadget/src/lib.rs` (lines 171-230).
The 0x40 (GET_FORMATS) branch sends the single byte
`GUD_PIXEL_FORMAT_XRGB8888` (lines 183-190; `GUD_PIXEL_FORMAT_RGB565` is
commented out there). -/
def handleDeviceToHostGadget (request : Nat) : CtrlReply :=
  if request = 0x00 then .send [GUD_STATUS_OK]
  else if request = 0x01 then .pendingDescriptor
  else if request = 0x40 then .send [GUD_PIXEL_FORMAT_XRGB8888]
  else if request = 0x41 then .send [0, 0, 0, 0, 0, 0, 0, 0, 0, 0]
  else if request = 0x50 then .send [0, 0, 0, 0, 0]
  else if request = 0x51 then .send [0, 0, 0, 0, 0, 0, 0, 0, 0, 0]
  else if request = 0x55 then .pendingModes
  else if request = 0x56 then .send [0]
  else if request = 0x54 then .send [GUD_CONNECTOR_STATUS_CONNECTED]
  else .unhandled

/-- The `SetupDeviceToHost` match of `src/gud-gadget/src/lib.rs` (lines
179-229).  Identical to the gadget table except that the 0x40 branch sends
`GUD_PIXEL_FORMAT_RGB565` (lines 189-195; `GUD_PIXEL_FORMAT_XRGB8888` is the
commented-out one there). -/
def handleDeviceToHostGud (request : Nat) : CtrlReply :=
  if request = 0x00 then .send [GUD_STATUS_OK]
  else if request = 0x01 then .pendingDescriptor
  else if request = 0x40 then .send [GUD_PIXEL_FORMAT_RGB565]
  else if request = 0x41 then .send [0, 0, 0, 0, 0, 0, 0, 0, 0, 0]
  else if request = 0x50 then .send [0, 0, 0, 0, 0]
  else if request = 0x51 then .send [0, 0, 0, 0, 0, 0, 0, 0, 0, 0]
  else if request = 0x55 then .pendingModes
  else if request = 0x56 then .send [0]
  else if request = 0x54 then .send [GUD_CONNECTOR_STATUS_CONNECTED]
  else .unhandled

/-- Modelled from the spec: the bit depth that each pixel-format code of the
fixed GUD enumeration designates (RGB565 is the 16-bit-per-pixel format,
RGB888 24, XRGB8888 32). -/
def formatBitsPerPixel (code : Nat) : Option Nat :=
  if code = GUD_PIXEL_FORMAT_RGB565 then some 16
  else if code = GUD_PIXEL_FORMAT_RGB888 then some 24
  else if code = GUD_PIXEL_FORMAT_XRGB8888 then some 32
  else none

/-! Byte-buffer lemmas -/

theorem length_setAt (l : List Nat) (i v : Nat) : (setAt l i v).length = l.length := by
  induction l generalizing i with
  | nil => rfl
  | cons h t ih =>
    cases i with
    | zero => rfl
    | succ j => simp [setAt, ih]

theorem nth_setAt_eq {l : List Nat} {i : Nat} (v : Nat) (h : i < l.length) :
    nth (setAt l i v) i = some v := by
  induction l generalizing i with
  | nil => simp at h
  | cons a t ih =>
    cases i with
    | zero => rfl
    | succ j =>
      simp only [List.length_cons] at h
      exact ih (Nat.lt_of_succ_lt_succ h)

theorem nth_setAt_ne {l : List Nat} {i j : Nat} (v : Nat) (h : i ≠ j) :
    nth (setAt l i v) j = nth l j := by
  induction l generalizing i j with
  | nil => rfl
  | cons a t ih =>
    cases i with
    | zero =>
      cases j with
      | zero => exact absurd rfl h
      | succ j' => rfl
    | succ i' =>
      cases j with
      | zero => rfl
      | succ j' => exact ih (fun hc => h (by rw [hc]))

theorem length_writeBytes (src : List Nat) (fb : List Nat) (off : Nat) :
    (writeBytes fb off src).length = fb.length := by
  induction src generalizing fb off with
  | nil => rfl
  | cons b rest ih => simp [writeBytes, ih, length_setAt]

/-! Wire-codec length facts -/

theorem readU32LE_length {bs : List Nat} {v : Nat} {r : List Nat}
    (h : readU32LE bs = some (v, r)) : bs.length = r.length + 4 := by
  rcases bs with _ | ⟨b0, bs⟩
  · simp [readU32LE] at h
  rcases bs with _ | ⟨b1, bs⟩
  · simp [readU32LE] at h
  rcases bs with _ | ⟨b2, bs⟩
  · simp [readU32LE] at h
  rcases bs with _ | ⟨b3, bs⟩
  · simp [readU32LE] at h
  simp only [readU32LE, Option.some.injEq, Prod.mk.injEq] at h
  obtain ⟨-, rfl⟩ := h
  simp [List.length_cons]

theorem readU8_length {bs : List Nat} {v : Nat} {r : List Nat}
    (h : readU8 bs = some (v, r)) : bs.length = r.length + 1 := by
  rcases bs with _ | ⟨b0, bs⟩
  · simp [readU8] at h
  simp only [readU8, Option.some.injEq, Prod.mk.injEq] at h
  obtain ⟨-, rfl⟩ := h
  simp [List.length_cons]

/-- A successful `SetBuffer` decode consumes exactly the fixed 25-byte wire
size. -/
theorem deserializeSetBuffer_length {bytes : List Nat} {v : SetBuffer} {rest : List Nat}
    (h : deserializeSetBuffer bytes = some (v, rest)) : bytes.length = rest.length + 25 := by
  unfold deserializeSetBuffer at h
  cases e1 : readU32LE bytes with
  | none => rw [e1] at h; simp at h
  | some p1 =>
  rw [e1] at h
  obtain ⟨x, r1⟩ := p1
  dsimp only at h
  cases e2 : readU32LE r1 with
  | none => rw [e2] at h; simp at h
  | some p2 =>
  rw [e2] at h
  obtain ⟨y, r2⟩ := p2
  dsimp only at h
  cases e3 : readU32LE r2 with
  | none => rw [e3] at h; simp at h
  | some p3 =>
  rw [e3] at h
  obtain ⟨w, r3⟩ := p3
  dsimp only at h
  cases e4 : readU32LE r3 with
  | none => rw [e4] at h; simp at h
  | some p4 =>
  rw [e4] at h
  obtain ⟨hh, r4⟩ := p4
  dsimp only at h
  cases e5 : readU32LE r4 with
  | none => rw [e5] at h; simp at h
  | some p5 =>
  rw [e5] at h
  obtain ⟨len, r5⟩ := p5
  dsimp only at h
  cases e6 : readU8 r5 with
  | none => rw [e6] at h; simp at h
  | some p6 =>
  rw [e6] at h
  obtain ⟨comp, r6⟩ := p6
  dsimp only at h
  cases e7 : readU32LE r6 with
  | none => rw [e7] at h; simp at h
  | some p7 =>
  rw [e7] at h
  obtain ⟨clen, r7⟩ := p7
  simp only [Option.some.injEq, Prod.mk.injEq] at h
  obtain ⟨-, rfl⟩ := h
  have l1 := readU32LE_length e1
  have l2 := readU32LE_length e2
  have l3 := readU32LE_length e3
  have l4 := readU32LE_length e4
  have l5 := readU32LE_length e5
  have l6 := readU8_length e6
  have l7 := readU32LE_length e7
  omega

/-! Claim C5 -/

/-- C5: a host-to-device set-buffer (0x60) payload shorter than the fixed
25-byte `SetBuffer` wire size makes the decode, and hence the dispatcher's
set-buffer branch, fail explicitly; no partially-filled `SetBuffer` value is
ever produced. -/
theorem claim_C5_short_setbuffer_decode_fails (payload : List Nat)
    (h : payload.length < 25) : handleSetBuffer payload = none := by
  unfold handleSetBuffer
  cases e : deserializeSetBuffer payload with
  | none => rfl
  | some p =>
    obtain ⟨v, rest⟩ := p
    have := deserializeSetBuffer_length e
    omega

theorem claim_C5_witness : handleSetBuffer (List.replicate 24 0) = none :=
  claim_C5_short_setbuffer_decode_fails (List.replicate 24 0) (by decide)

/-! Claim C4 -/

/-- C4: when the assembled bulk payload overshoots the declared target length
(declared 3 bytes, one 4-byte packet arrives), `recv_buffer` of
`src/gadget/src/lib.rs` does not return a recoverable error: it hits the
`panic!("expected buf len {}, got {}")` at lines 331-334, which terminates
the process.  This contradicts the claim (and the code's own
`// TODO: proper Err` records the intended behavior). -/
theorem claim_C4_overshoot_hits_size_mismatch_panic :
    recvBufferGadget (fun _ _ => none) ⟨0, 0, 1, 1, 3, 0, 0⟩
      (List.replicate 4 0) 4 [[9, 9, 9, 9]] = .sizeMismatch 3 4 := by decide

/-! Claim C7 -/

/-- C7 counterexample: the gadget build's 0x40 (GET_FORMATS) branch answers
with the single byte `GUD_PIXEL_FORMAT_XRGB8888`, which designates a
32-bit-per-pixel format, not a 16-bit-per-pixel one. -/
theorem claim_C7_counterexample :
    handleDeviceToHostGadget 0x40 = .send [GUD_PIXEL_FORMAT_XRGB8888] ∧
    formatBitsPerPixel GUD_PIXEL_FORMAT_XRGB8888 = some 32 ∧
    formatBitsPerPixel GUD_PIXEL_FORMAT_XRGB8888 ≠ some 16 := by decide

/-- C7 amended: each build answers the supported-pixel-formats query with
exactly one single-byte format code; the streaming build's code is RGB565
(16 bits per pixel) while the gadget build's code is XRGB8888 (32 bits per
pixel). -/
theorem claim_C7_one_format_per_build :
    (handleDeviceToHostGud 0x40 = .send [GUD_PIXEL_FORMAT_RGB565] ∧
     formatBitsPerPixel GUD_PIXEL_FORMAT_RGB565 = some 16) ∧
    (handleDeviceToHostGadget 0x40 = .send [GUD_PIXEL_FORMAT_XRGB8888] ∧
     formatBitsPerPixel GUD_PIXEL_FORMAT_XRGB8888 = some 32) := by decide

/-! Claim C10 -/

/-- C10: the dispatcher accepts a `SetBuffer` with `width = 0` (the 25-byte
payload decodes fine), and on any such value both `recv_buffer`
implementations hit the `length / width / height` division by zero before any
bounds check or endpoint read — for every framebuffer, pitch and packet
stream the result is the division panic. -/
theorem claim_C10_zero_width_reaches_div_by_zero :
    deserializeSetBuffer
        [0, 0, 0, 0, 0, 0, 0, 0, 0, 0, 0, 0, 1, 0, 0, 0, 4, 0, 0, 0, 0, 0, 0, 0, 0]
      = some (⟨0, 0, 0, 1, 4, 0, 0⟩, []) ∧
    ∀ (d : List Nat → Nat → Option (List Nat)) (fb : List Nat) (fbPitch : Nat)
      (packets : List (List Nat)),
      recvBufferGadget d ⟨0, 0, 0, 1, 4, 0, 0⟩ fb fbPitch packets = .divByZero ∧
      recvBufferStreaming ⟨0, 0, 0, 1, 4, 0, 0⟩ fb fbPitch packets = .divByZero :=
  ⟨by decide, fun _ _ _ _ => ⟨rfl, rfl⟩⟩

/-! Claim C2, counterexample part -/

/-- C2 counterexample: for the streaming `recv_buffer` of
`src/gud-gadget/src/lib.rs` and a `SetBuffer` with `compression = 1`,
`compressed_length = 5`, `length = 10`, delivering exactly
`compressed_length` bytes leaves the engine still waiting for more data
(blocked), and it completes only after `length` bytes: the drained byte count
is `length`, not `compressed_length`, even though compression is active. -/
theorem claim_C2_counterexample :
    recvBufferStreaming ⟨0, 0, 5, 2, 10, 1, 5⟩ (List.replicate 10 0) 5
        [[1, 2, 3, 4, 5]] = .blocked ∧
    recvBufferStreaming ⟨0, 0, 5, 2, 10, 1, 5⟩ (List.replicate 10 0) 5
        [[1, 2, 3, 4, 5], [6, 7, 8, 9, 10]]
      = .ok [1, 2, 3, 4, 5, 6, 7, 8, 9, 10] := by decide

/-! Claim C6 -/

theorem readU32LE_u32LE {n : Nat} (h : n < 4294967296) (rest : List Nat) :
    readU32LE (u32LE n ++ rest) = some (n, rest) := by
  simp only [u32LE, List.cons_append, List.nil_append, readU32LE, Option.some.injEq,
    Prod.mk.injEq]
  exact ⟨by omega, trivial⟩

theorem readU16LE_u16LE {n : Nat} (h : n < 65536) (rest : List Nat) :
    readU16LE (u16LE n ++ rest) = some (n, rest) := by
  simp only [u16LE, List.cons_append, List.nil_append, readU16LE, Option.some.injEq,
    Prod.mk.injEq]
  exact ⟨by omega, trivial⟩

theorem serializeDisplayMode_length (m : DisplayMode) :
    (serializeDisplayMode m).length = 24 := by
  simp [serializeDisplayMode, u32LE, u16LE]

theorem decodeDisplayMode_serialize {m : DisplayMode} (hm : m.valid) (rest : List Nat) :
    decodeDisplayMode (serializeDisplayMode m ++ rest) = some (m, rest) := by
  obtain ⟨h1, h2, h3, h4, h5, h6, h7, h8, h9, h10⟩ := hm
  unfold decodeDisplayMode serializeDisplayMode
  rw [List.append_assoc, List.append_assoc, List.append_assoc, List.append_assoc,
    List.append_assoc, List.append_assoc, List.append_assoc, List.append_assoc,
    List.append_assoc]
  rw [readU32LE_u32LE h1]
  dsimp only
  rw [readU16LE_u16LE h2]
  dsimp only
  rw [readU16LE_u16LE h3]
  dsimp only
  rw [readU16LE_u16LE h4]
  dsimp only
  rw [readU16LE_u16LE h5]
  dsimp only
  rw [readU16LE_u16LE h6]
  dsimp only
  rw [readU16LE_u16LE h7]
  dsimp only
  rw [readU16LE_u16LE h8]
  dsimp only
  rw [readU16LE_u16LE h9]
  dsimp only
  rw [readU32LE_u32LE h10]

theorem decodeModesN_roundtrip (modes : List DisplayMode)
    (hv : ∀ m ∈ modes, m.valid) :
    decodeModesN modes.length ((modes.map serializeDisplayMode).flatten) = some modes := by
  induction modes with
  | nil => rfl
  | cons m tl ih =>
    simp only [List.map_cons, List.flatten_cons, List.length_cons, decodeModesN]
    rw [decodeDisplayMode_serialize (hv m (List.mem_cons_self m tl))]
    dsimp only
    rw [ih (fun a ha => hv a (List.mem_cons_of_mem m ha))]
    rfl

theorem flatten_serialize_length (modes : List DisplayMode) :
    ((modes.map serializeDisplayMode).flatten).length = 24 * modes.length := by
  induction modes with
  | nil => rfl
  | cons m tl ih =>
    simp only [List.map_cons, List.flatten_cons, List.length_append, List.length_cons,
      serializeDisplayMode_length, ih]
    ring

/-- C6: when `24 * count` fits the response budget, `send_modes` produces
exactly `24 * count` bytes, the concatenation of each record's fixed 24-byte
little-endian layout in declaration order, and decoding that encoding field
by field restores the original mode sequence. -/
theorem claim_C6_send_modes_roundtrip (senderLen : Nat) (modes : List DisplayMode)
    (hv : ∀ m ∈ modes, m.valid) (hb : 24 * modes.length ≤ senderLen) :
    ∃ buf, sendModes senderLen modes = some buf ∧
      buf.length = 24 * modes.length ∧
      buf = (modes.map serializeDisplayMode).flatten ∧
      decodeModes buf = some modes := by
  refine ⟨(modes.map serializeDisplayMode).flatten, ?_, flatten_serialize_length modes, rfl, ?_⟩
  · unfold sendModes
    rw [if_neg (by omega)]
  · unfold decodeModes
    rw [flatten_serialize_length modes, Nat.mul_div_cancel_left _ (by norm_num)]
    exact decodeModesN_roundtrip modes hv

theorem claim_C6_witness :
    ∃ buf, sendModes 48 [⟨100000, 1024, 1048, 1184, 1344, 768, 771, 777, 806, 0⟩]
        = some buf ∧
      buf.length = 24 * 1 ∧
      buf = ([⟨100000, 1024, 1048, 1184, 1344, 768, 771, 777, 806, 0⟩].map
               serializeDisplayMode).flatten ∧
      decodeModes buf = some [⟨100000, 1024, 1048, 1184, 1344, 768, 771, 777, 806, 0⟩] := by
  have h := claim_C6_send_modes_roundtrip 48
    [⟨100000, 1024, 1048, 1184, 1344, 768, 771, 777, 806, 0⟩] (by decide) (by decide)
  simpa using h

/-! Destination-offset arithmetic and `writeSeq` characterization -/

theorem div_mod_shift {W k m : Nat} (h : k % W + m < W) :
    (k + m) / W = k / W ∧ (k + m) % W = k % W + m := by
  have hW : 0 < W := by
    rcases Nat.eq_zero_or_pos W with rfl | hW
    · simp [Nat.mod_zero] at h
    · exact hW
  have hk := Nat.div_add_mod k W
  have e : k + m = (k % W + m) + W * (k / W) := by omega
  constructor
  · rw [e, Nat.add_mul_div_left _ _ hW, Nat.div_eq_of_lt h, Nat.zero_add]
  · rw [e, Nat.add_mul_mod_self_left, Nat.mod_eq_of_lt h]

theorem posOf_add_in_row {P0 y0 X W k m : Nat} (h : k % W + m < W) :
    posOf P0 y0 X W (k + m) = posOf P0 y0 X W k + m := by
  obtain ⟨hd, hm⟩ := div_mod_shift h
  unfold posOf
  rw [hd, hm]
  omega

theorem posOf_strict_mono {P0 y0 X W : Nat} (hW : 0 < W) (hWP : W ≤ P0)
    {k k' : Nat} (hkk : k < k') : posOf P0 y0 X W k < posOf P0 y0 X W k' := by
  have hq : k / W ≤ k' / W := Nat.div_le_div_right (le_of_lt hkk)
  have h1 := Nat.div_add_mod k W
  have h2 := Nat.div_add_mod k' W
  rcases eq_or_lt_of_le hq with heq | hlt
  · unfold posOf
    rw [heq] at h1 ⊢
    omega
  · have hmod : k % W < W := Nat.mod_lt _ hW
    have hb : P0 * (y0 + k / W) + P0 ≤ P0 * (y0 + k' / W) := by
      have hstep : y0 + k / W + 1 ≤ y0 + k' / W := by omega
      calc P0 * (y0 + k / W) + P0 = P0 * (y0 + k / W + 1) := by ring
        _ ≤ P0 * (y0 + k' / W) := Nat.mul_le_mul_left P0 hstep
    unfold posOf
    omega

theorem posOf_lt_bound (P0 y0 X W h0 k : Nat) (hW : 0 < W) (hk : k < h0 * W) :
    posOf P0 y0 X W k < P0 * (y0 + h0 - 1) + X + W := by
  have hq : k / W < h0 := (Nat.div_lt_iff_lt_mul hW).mpr hk
  have hmod : k % W < W := Nat.mod_lt _ hW
  have hb : P0 * (y0 + k / W) ≤ P0 * (y0 + h0 - 1) := Nat.mul_le_mul_left P0 (by omega)
  unfold posOf
  omega

theorem length_writeSeq (P0 y0 X W : Nat) (l : List Nat) :
    ∀ k fb, (writeSeq P0 y0 X W k l fb).length = fb.length := by
  induction l with
  | nil => intro k fb; rfl
  | cons b rest ih => intro k fb; simp [writeSeq, ih, length_setAt]

theorem nth_writeSeq_miss (P0 y0 X W : Nat) (l : List Nat) :
    ∀ k fb j, (∀ m, m < l.length → posOf P0 y0 X W (k + m) ≠ j) →
      nth (writeSeq P0 y0 X W k l fb) j = nth fb j := by
  induction l with
  | nil => intro k fb j _; rfl
  | cons b rest ih =>
    intro k fb j hmiss
    show nth (writeSeq P0 y0 X W (k + 1) rest (setAt fb (posOf P0 y0 X W k) b)) j = nth fb j
    rw [ih (k + 1) _ j (fun m hm => by
      have := hmiss (m + 1) (by simp only [List.length_cons]; omega)
      simpa [Nat.add_assoc, Nat.add_comm 1 m] using this)]
    exact nth_setAt_ne b (by simpa using hmiss 0 (by simp))

theorem nth_writeSeq_hit (P0 y0 X W : Nat) (hW : 0 < W) (hWP : W ≤ P0) (l : List Nat) :
    ∀ k fb m, m < l.length → posOf P0 y0 X W (k + m) < fb.length →
      nth (writeSeq P0 y0 X W k l fb) (posOf P0 y0 X W (k + m)) = nth l m := by
  induction l with
  | nil => intro k fb m hm _; simp at hm
  | cons b rest ih =>
    intro k fb m hm hlt
    cases m with
    | zero =>
      show nth (writeSeq P0 y0 X W (k + 1) rest (setAt fb (posOf P0 y0 X W k) b))
          (posOf P0 y0 X W (k + 0)) = some b
      rw [nth_writeSeq_miss P0 y0 X W rest (k + 1) _ _ (fun m' hm' =>
        (posOf_strict_mono hW hWP (show k + 0 < k + 1 + m' by omega)).ne')]
      simp only [Nat.add_zero]
      exact nth_setAt_eq b (by simpa using hlt)
    | succ m' =>
      show nth (writeSeq P0 y0 X W (k + 1) rest (setAt fb (posOf P0 y0 X W k) b))
          (posOf P0 y0 X W (k + (m' + 1))) = nth rest m'
      have harg : k + (m' + 1) = (k + 1) + m' := by omega
      rw [harg]
      exact ih (k + 1) _ m' (by simpa using hm)
        (by rw [length_setAt, ← harg]; exact hlt)

theorem writeBytes_eq_writeSeq (P0 y0 X W : Nat) (src : List Nat) :
    ∀ k fb, k % W + src.length ≤ W →
      writeBytes fb (posOf P0 y0 X W k) src = writeSeq P0 y0 X W k src fb := by
  induction src with
  | nil => intro k fb _; rfl
  | cons b rest ih =>
    intro k fb hle
    show writeBytes (setAt fb (posOf P0 y0 X W k) b) (posOf P0 y0 X W k + 1) rest
        = writeSeq P0 y0 X W (k + 1) rest (setAt fb (posOf P0 y0 X W k) b)
    cases rest with
    | nil => rfl
    | cons c rest2 =>
      have hrow : k % W + 1 < W := by
        simp only [List.length_cons] at hle
        omega
      rw [← posOf_add_in_row hrow]
      refine ih (k + 1) _ ?_
      obtain ⟨-, hm⟩ := div_mod_shift hrow
      simp only [List.length_cons] at hle ⊢
      omega

theorem writeSeq_append (P0 y0 X W : Nat) (A B : List Nat) :
    ∀ k fb, writeSeq P0 y0 X W k (A ++ B) fb
      = writeSeq P0 y0 X W (k + A.length) B (writeSeq P0 y0 X W k A fb) := by
  induction A with
  | nil => intro k fb; simp [writeSeq]
  | cons a A2 ih =>
    intro k fb
    show writeSeq P0 y0 X W (k + 1) (A2 ++ B) (setAt fb (posOf P0 y0 X W k) a)
      = writeSeq P0 y0 X W (k + (A2.length + 1)) B
          (writeSeq P0 y0 X W (k + 1) A2 (setAt fb (posOf P0 y0 X W k) a))
    rw [ih (k + 1)]
    have harg : k + 1 + A2.length = k + (A2.length + 1) := by omega
    rw [harg]

/-- Writing the first `k + c` payload bytes is writing the first `k`, then the
next `c`. -/
theorem writeSeq_take_extend (P0 y0 X W : Nat) (P fb0 : List Nat) (k c : Nat)
    (hk : k ≤ P.length) :
    writeSeq P0 y0 X W 0 (P.take (k + c)) fb0
      = writeSeq P0 y0 X W k ((P.drop k).take c) (writeSeq P0 y0 X W 0 (P.take k) fb0) := by
  rw [List.take_add, writeSeq_append]
  have harg : 0 + (P.take k).length = k := by
    rw [Nat.zero_add, List.length_take]
    exact Nat.min_eq_left hk
  rw [harg]

/-! Drain and blit characterization (`src/gadget` side) -/

theorem drainLoop_exact (len : Nat) : ∀ (packets : List (List Nat)) (acc : List Nat),
    acc.length ≤ len → acc.length + (packets.flatten).length = len →
    drainLoop len packets acc = some (acc ++ packets.flatten) := by
  intro packets
  induction packets with
  | nil =>
    intro acc h1 h2
    simp only [List.flatten_nil, List.length_nil] at h2
    show (if len ≤ acc.length then some acc else none) = some (acc ++ [])
    rw [if_pos (by omega), List.append_nil]
  | cons p ps ih =>
    intro acc h1 h2
    show (if len ≤ acc.length then some acc else drainLoop len ps (acc ++ p))
      = some (acc ++ (p :: ps).flatten)
    simp only [List.flatten_cons, List.length_append] at h2 ⊢
    by_cases hc : len ≤ acc.length
    · rw [if_pos hc]
      have hp : p.length = 0 := by omega
      have hps : (ps.flatten).length = 0 := by omega
      rw [List.length_eq_zero.mp hp, List.length_eq_zero.mp hps]
      simp
    · rw [if_neg hc]
      rw [ih (acc ++ p) (by simp only [List.length_append]; omega)
        (by simp only [List.length_append]; omega)]
      rw [List.append_assoc]

theorem drainLoop_short (len : Nat) : ∀ (packets : List (List Nat)) (acc : List Nat),
    acc.length + (packets.flatten).length < len → drainLoop len packets acc = none := by
  intro packets
  induction packets with
  | nil =>
    intro acc h
    simp only [List.flatten_nil, List.length_nil] at h
    show (if len ≤ acc.length then some acc else none) = none
    rw [if_neg (by omega)]
  | cons p ps ih =>
    intro acc h
    simp only [List.flatten_cons, List.length_append] at h
    show (if len ≤ acc.length then some acc else drainLoop len ps (acc ++ p)) = none
    rw [if_neg (by omega)]
    exact ih (acc ++ p) (by simp only [List.length_append]; omega)

theorem blitLoop_eq_writeSeq (P0 X W : Nat) (buf : List Nat) (y0 fbLen : Nat)
    (hW : 0 < W) :
    ∀ n y fb, y0 ≤ y → fb.length = fbLen →
      (y - y0) * W + n * W ≤ buf.length →
      (∀ r, y ≤ r → r < y + n → P0 * r + X + W ≤ fbLen) →
      blitLoop P0 X W buf n y ((y - y0) * W) fb
        = some (writeSeq P0 y0 X W ((y - y0) * W)
            ((buf.drop ((y - y0) * W)).take (n * W)) fb) := by
  intro n
  induction n with
  | zero =>
    intro y fb hy hfb hbuf hrows
    rw [Nat.zero_mul, List.take_zero]
    rfl
  | succ n ih =>
    intro y fb hy hfb hbuf hrows
    have hcm : y * P0 = P0 * y := Nat.mul_comm y P0
    have hrowy := hrows y le_rfl (by omega)
    have hrowbound : y * P0 + X + W ≤ fb.length := by omega
    have hstepW : (y - y0) * W + W ≤ buf.length := by
      have : W ≤ (n + 1) * W := by
        calc W = 1 * W := (Nat.one_mul W).symm
          _ ≤ (n + 1) * W := Nat.mul_le_mul_right W (by omega)
      omega
    show (if y * P0 + X + W ≤ fb.length ∧ (y - y0) * W + W ≤ buf.length then
        blitLoop P0 X W buf n (y + 1) ((y - y0) * W + W)
          (writeBytes fb (y * P0 + X) ((buf.drop ((y - y0) * W)).take W))
      else none)
      = some (writeSeq P0 y0 X W ((y - y0) * W)
          ((buf.drop ((y - y0) * W)).take ((n + 1) * W)) fb)
    rw [if_pos ⟨hrowbound, hstepW⟩]
    have hdiv : (y - y0) * W / W = y - y0 := Nat.mul_div_cancel (y - y0) hW
    have hmod : (y - y0) * W % W = 0 := Nat.mul_mod_left (y - y0) W
    have hpos : y * P0 + X = posOf P0 y0 X W ((y - y0) * W) := by
      unfold posOf
      rw [hdiv, hmod]
      have : y0 + (y - y0) = y := by omega
      rw [this, Nat.add_zero, hcm]
    have hchunklen : ((buf.drop ((y - y0) * W)).take W).length = W := by
      rw [List.length_take, List.length_drop]
      omega
    rw [hpos, writeBytes_eq_writeSeq P0 y0 X W _ ((y - y0) * W) fb
      (by rw [hmod, hchunklen, Nat.zero_add])]
    have hnext : (y + 1 - y0) * W = (y - y0) * W + W := by
      have : y + 1 - y0 = (y - y0) + 1 := by omega
      rw [this]
      ring
    have hih := ih (y + 1)
      (writeSeq P0 y0 X W ((y - y0) * W) ((buf.drop ((y - y0) * W)).take W) fb)
      (by omega) (by rw [length_writeSeq]; exact hfb)
      (by
        rw [hnext]
        have hexp : (n + 1) * W = W + n * W := by ring
        omega)
      (fun r h1 h2 => hrows r (by omega) (by omega))
    rw [hnext] at hih
    rw [hih]
    congr 1
    have hdecomp : (buf.drop ((y - y0) * W)).take ((n + 1) * W)
        = (buf.drop ((y - y0) * W)).take W
          ++ (buf.drop ((y - y0) * W + W)).take (n * W) := by
      have hsplit : (n + 1) * W = W + n * W := by ring
      rw [hsplit, List.take_add]
      have h2 : (buf.drop ((y - y0) * W)).drop W = buf.drop ((y - y0) * W + W) := by
        rw [List.drop_drop, Nat.add_comm]
      rw [h2]
    conv_rhs => rw [hdecomp]
    rw [writeSeq_append, hchunklen]

theorem blitLoop_zero_width (P0 X : Nat) (buf : List Nat) :
    ∀ (n y bufPos : Nat) (fb : List Nat),
      (∀ r, y ≤ r → r < y + n → r * P0 + X ≤ fb.length) → bufPos ≤ buf.length →
      blitLoop P0 X 0 buf n y bufPos fb = some fb := by
  intro n
  induction n with
  | zero => intro y bufPos fb _ _; rfl
  | succ n ih =>
    intro y bufPos fb hrows hbp
    show (if y * P0 + X + 0 ≤ fb.length ∧ bufPos + 0 ≤ buf.length then
        blitLoop P0 X 0 buf n (y + 1) (bufPos + 0)
          (writeBytes fb (y * P0 + X) ((buf.drop bufPos).take 0))
      else none) = some fb
    rw [if_pos ⟨by have := hrows y le_rfl (by omega); omega, by omega⟩]
    rw [List.take_zero]
    show blitLoop P0 X 0 buf n (y + 1) (bufPos + 0) fb = some fb
    rw [Nat.add_zero]
    exact ih (y + 1) bufPos fb (fun r h1 h2 => hrows r (by omega) (by omega)) hbp


/-- General result of the accumulate-then-blit engine on an uncompressed
transfer: the blit copies exactly `(y + height) mod 2^32 - y` rows (the u32
wrap of line 358), i.e. it writes the corresponding prefix of the payload. -/
theorem recvGadget_result (d : List Nat → Nat → Option (List Nat)) (info : SetBuffer)
    (fb : List Nat) (fbPitch : Nat) (packets : List (List Nat))
    (hcomp : info.compression = 0) (hw : 0 < info.width) (hh : 0 < info.height)
    (hlen : info.length
      = info.width * info.height * (info.length / info.width / info.height))
    (hjoin : (packets.flatten).length = info.length)
    (hbound : (info.y + info.height - 1) * fbPitch
        + (info.x + info.width) * (info.length / info.width / info.height) ≤ fb.length) :
    recvBufferGadget d info fb fbPitch packets
      = .ok (writeSeq fbPitch info.y
          (info.x * (info.length / info.width / info.height))
          (info.width * (info.length / info.width / info.height))
          0 ((packets.flatten).take
              (((info.y + info.height) % 4294967296 - info.y)
                * (info.width * (info.length / info.width / info.height)))) fb) := by
  set bpp := info.length / info.width / info.height with hbpp
  set W := info.width * bpp with hWdef
  set X := info.x * bpp with hXdef
  have hrowcount : (info.y + info.height) % 4294967296 - info.y ≤ info.height := by
    have := Nat.mod_le (info.y + info.height) 4294967296
    omega
  unfold recvBufferGadget
  rw [← hbpp, ← hWdef, ← hXdef]
  rw [if_neg (by push_neg; omega)]
  have htarget : gadgetTargetLen info = info.length := by
    unfold gadgetTargetLen
    rw [if_neg (by omega)]
  rw [htarget]
  rw [drainLoop_exact info.length packets [] (by simp) (by simpa using hjoin)]
  dsimp only
  simp only [List.nil_append]
  rw [if_neg (by simp [hjoin])]
  rw [if_neg (by omega)]
  dsimp only
  rcases Nat.eq_zero_or_pos bpp with hbpp0 | hbpp0
  · have hW0 : W = 0 := by rw [hWdef, hbpp0, Nat.mul_zero]
    have hX0 : X = 0 := by rw [hXdef, hbpp0, Nat.mul_zero]
    have hlen0 : info.length = 0 := by rw [hlen, hbpp0, Nat.mul_zero]
    have hfl : packets.flatten = [] := List.length_eq_zero.mp (by omega)
    rw [hfl, hW0]
    rw [blitLoop_zero_width fbPitch X []
      ((info.y + info.height) % 4294967296 - info.y) info.y 0 fb ?rows (by simp)]
    case rows =>
      intro r h1 h2
      have h3 := hbound
      rw [hbpp0, Nat.mul_zero, Nat.add_zero] at h3
      have h4 : r * fbPitch ≤ (info.y + info.height - 1) * fbPitch :=
        Nat.mul_le_mul_right fbPitch (by omega)
      omega
    rw [List.take_nil]
    rfl
  · have hWpos : 0 < W := by rw [hWdef]; exact Nat.mul_pos hw hbpp0
    have hbuf : (packets.flatten).length = info.height * W := by
      rw [hjoin, hlen, hWdef]
      ring
    have hbound2 : fbPitch * (info.y + info.height - 1) + X + W ≤ fb.length := by
      have hc : (info.y + info.height - 1) * fbPitch
          = fbPitch * (info.y + info.height - 1) := Nat.mul_comm _ _
      have hd : (info.x + info.width) * bpp = X + W := by rw [hXdef, hWdef]; ring
      omega
    have hblit := blitLoop_eq_writeSeq fbPitch X W packets.flatten info.y fb.length
      hWpos ((info.y + info.height) % 4294967296 - info.y) info.y fb le_rfl rfl
      (by
        rw [Nat.sub_self, Nat.zero_mul, Nat.zero_add, hbuf]
        exact Nat.mul_le_mul_right W hrowcount)
      (fun r h1 h2 => by
        have h4 : fbPitch * r ≤ fbPitch * (info.y + info.height - 1) :=
          Nat.mul_le_mul_left fbPitch (by omega)
        omega)
    simp only [Nat.sub_self, Nat.zero_mul, List.drop_zero] at hblit
    rw [hblit]

/-- When `y + height` stays inside the u32 range, the blit copies exactly
`height` rows, i.e. the whole payload. -/
theorem recvGadget_ok (d : List Nat → Nat → Option (List Nat)) (info : SetBuffer)
    (fb : List Nat) (fbPitch : Nat) (packets : List (List Nat))
    (hcomp : info.compression = 0) (hw : 0 < info.width) (hh : 0 < info.height)
    (hlen : info.length
      = info.width * info.height * (info.length / info.width / info.height))
    (hjoin : (packets.flatten).length = info.length)
    (hbound : (info.y + info.height - 1) * fbPitch
        + (info.x + info.width) * (info.length / info.width / info.height) ≤ fb.length)
    (hnowrap : info.y + info.height < 4294967296) :
    recvBufferGadget d info fb fbPitch packets
      = .ok (writeSeq fbPitch info.y
          (info.x * (info.length / info.width / info.height))
          (info.width * (info.length / info.width / info.height))
          0 packets.flatten fb) := by
  rw [recvGadget_result d info fb fbPitch packets hcomp hw hh hlen hjoin hbound]
  rw [Nat.mod_eq_of_lt hnowrap, Nat.add_sub_cancel_left]
  congr 1
  rw [List.take_of_length_le]
  calc packets.flatten.length = info.length := hjoin
    _ = info.width * info.height * (info.length / info.width / info.height) := hlen
    _ ≤ info.height * (info.width * (info.length / info.width / info.height)) :=
        Nat.le_of_eq (by ring)

/-! Streaming-engine simulation (`src/gud-gadget` side) -/

theorem sState_fresh (P0 y0 X W k : Nat) (h : ¬(k % W = 0 ∧ k ≠ 0)) :
    sFbOff P0 y0 W k = P0 * (y0 + k / W) ∧
    sLineAbs P0 y0 X W k = posOf P0 y0 X W k ∧
    sLineRem W k = W - k % W := by
  unfold sFbOff sLineAbs sLineRem posOf
  rw [if_neg h, if_neg h, if_neg h]
  exact ⟨rfl, rfl, rfl⟩

theorem sState_after_chunk (P0 y0 X W k c : Nat) (hW : 0 < W) (hc1 : 0 < c)
    (hc2 : k % W + c ≤ W) :
    sFbOff P0 y0 W (k + c) = P0 * (y0 + k / W) ∧
    sLineAbs P0 y0 X W (k + c) = posOf P0 y0 X W k + c ∧
    sLineRem W (k + c) = W - k % W - c := by
  rcases Nat.lt_or_ge (k % W + c) W with hlt | hge
  · obtain ⟨hd, hm⟩ := div_mod_shift hlt
    have hne : ¬((k + c) % W = 0 ∧ k + c ≠ 0) := by
      rw [hm]
      rintro ⟨h1, -⟩
      omega
    unfold sFbOff sLineAbs sLineRem posOf
    rw [if_neg hne, if_neg hne, if_neg hne, hd, hm]
    exact ⟨rfl, by omega, by omega⟩
  · have hceq : k % W + c = W := by omega
    have hdm := Nat.div_add_mod k W
    have hkc : k + c = W * (k / W) + W := by omega
    have hd : (k + c) / W = k / W + 1 := by
      rw [hkc, show W * (k / W) + W = W * (k / W + 1) from by ring,
        Nat.mul_div_cancel_left _ hW]
    have hm : (k + c) % W = 0 := by
      rw [hkc, show W * (k / W) + W = (k / W + 1) * W from by ring]
      exact Nat.mul_mod_left _ _
    have hyes : (k + c) % W = 0 ∧ k + c ≠ 0 := ⟨hm, by omega⟩
    unfold sFbOff sLineAbs sLineRem posOf
    rw [if_pos hyes, if_pos hyes, if_pos hyes, hd]
    have hrow : P0 * (y0 + (k / W + 1) - 1) = P0 * (y0 + k / W) := rfl
    refine ⟨hrow, by rw [hrow]; omega, by omega⟩

theorem sState_stale (P0 y0 X W k : Nat) (hW : 0 < W) (hst : k % W = 0 ∧ k ≠ 0) :
    sFbOff P0 y0 W k + P0 = P0 * (y0 + k / W) ∧
    sFbOff P0 y0 W k + P0 + X = posOf P0 y0 X W k ∧
    sLineRem W k = 0 := by
  have hdm := Nat.div_add_mod k W
  have hWk : W ≤ k :=
    Nat.le_of_dvd (Nat.pos_of_ne_zero hst.2) (Nat.dvd_of_mod_eq_zero hst.1)
  have hq : 1 ≤ k / W := (Nat.one_le_div_iff hW).mpr hWk
  unfold sFbOff sLineRem posOf
  rw [if_pos hst, if_pos hst, hst.1]
  have hrow : P0 * (y0 + k / W - 1) + P0 = P0 * (y0 + k / W) := by
    calc P0 * (y0 + k / W - 1) + P0 = P0 * (y0 + k / W - 1 + 1) := by ring
      _ = P0 * (y0 + k / W) := by congr 1; omega
  exact ⟨hrow, by omega, rfl⟩


theorem innerGo_copy_step (P0 y0 X W h0 fbLen : Nat) (P fb0 : List Nat)
    (hW : 0 < W) (hP : P.length = h0 * W)
    (fuel n k : Nat) (hn : 0 < n) (hkn : k + n ≤ h0 * W)
    (fo la lr : Nat) (hfo : fo = P0 * (y0 + k / W)) (hla : la = posOf P0 y0 X W k)
    (hlr : lr = W - k % W) :
    innerGo P0 X W fbLen (fuel + 1) ((P.drop k).take n)
        fo la lr
        (writeSeq P0 y0 X W 0 (P.take k) fb0)
      = innerGo P0 X W fbLen fuel
          ((P.drop (k + min (W - k % W) n)).take (n - min (W - k % W) n))
          (sFbOff P0 y0 W (k + min (W - k % W) n))
          (sLineAbs P0 y0 X W (k + min (W - k % W) n))
          (sLineRem W (k + min (W - k % W) n))
          (writeSeq P0 y0 X W 0 (P.take (k + min (W - k % W) n)) fb0) := by
  subst hfo hla hlr
  have hmod : k % W < W := Nat.mod_lt _ hW
  have hdlen : ((P.drop k).take n).length = n := by
    rw [List.length_take, List.length_drop, hP]
    omega
  set c := min (W - k % W) n with hc
  have hc1 : 0 < c := by rw [hc]; omega
  have hc2 : k % W + c ≤ W := by rw [hc]; omega
  have hcn : c ≤ n := by rw [hc]; omega
  obtain ⟨b, t, hbt⟩ : ∃ b t, (P.drop k).take n = b :: t := by
    cases e : (P.drop k).take n with
    | nil => rw [e] at hdlen; simp at hdlen; omega
    | cons b t => exact ⟨b, t, rfl⟩
  rw [hbt]
  have hlen_bt : (b :: t).length = n := by rw [← hbt]; exact hdlen
  simp only [innerGo]
  rw [if_neg (by omega)]
  rw [hlen_bt, ← hc]
  have htake : (b :: t).take c = (P.drop k).take c := by
    rw [← hbt, List.take_take]
    congr 1
    omega
  have hdrop : (b :: t).drop c = (P.drop (k + c)).take (n - c) := by
    rw [← hbt, List.drop_take, List.drop_drop]
  have hsrclen : ((P.drop k).take c).length = c := by
    rw [List.length_take, List.length_drop, hP]
    omega
  have hwrite : writeBytes (writeSeq P0 y0 X W 0 (P.take k) fb0) (posOf P0 y0 X W k)
      ((b :: t).take c) = writeSeq P0 y0 X W 0 (P.take (k + c)) fb0 := by
    rw [htake, writeBytes_eq_writeSeq P0 y0 X W _ k _ (by rw [hsrclen]; exact hc2),
      ← writeSeq_take_extend P0 y0 X W P fb0 k c (by omega)]
  rw [hdrop, hwrite]
  obtain ⟨e1, e2, e3⟩ := sState_after_chunk P0 y0 X W k c hW hc1 hc2
  rw [e1, e2, e3]


theorem innerGo_sim (P0 y0 X W h0 fbLen : Nat) (P fb0 : List Nat)
    (hW : 0 < W) (hP : P.length = h0 * W)
    (hbound : P0 * (y0 + h0 - 1) + X + W ≤ fbLen) :
    ∀ fuel n k, k + n ≤ h0 * W → 2 * n + 1 ≤ fuel →
      innerGo P0 X W fbLen fuel ((P.drop k).take n)
          (sFbOff P0 y0 W k) (sLineAbs P0 y0 X W k) (sLineRem W k)
          (writeSeq P0 y0 X W 0 (P.take k) fb0)
        = .ok (sFbOff P0 y0 W (k + n)) (sLineAbs P0 y0 X W (k + n))
            (sLineRem W (k + n)) (writeSeq P0 y0 X W 0 (P.take (k + n)) fb0) := by
  intro fuel
  induction fuel using Nat.strong_induction_on with
  | _ fuel ih =>
  intro n k hkn hfuel
  rcases Nat.eq_zero_or_pos n with rfl | hn
  · rw [List.take_zero, Nat.add_zero]
    cases fuel with
    | zero => omega
    | succ f => rfl
  · have hklt : k < h0 * W := by omega
    have hh0 : 0 < h0 := Nat.pos_of_ne_zero (fun h => by
      rw [h, Nat.zero_mul] at hklt
      omega)
    have hq : k / W ≤ h0 - 1 := by
      have := (Nat.div_lt_iff_lt_mul hW).mpr hklt
      omega
    have hmon : P0 * (y0 + k / W) ≤ P0 * (y0 + h0 - 1) :=
      Nat.mul_le_mul_left P0 (by omega)
    have hcpos : 0 < min (W - k % W) n := by
      have : k % W < W := Nat.mod_lt _ hW
      omega
    have hccap : min (W - k % W) n ≤ n := by omega
    have harg : k + min (W - k % W) n + (n - min (W - k % W) n) = k + n := by omega
    by_cases hst : k % W = 0 ∧ k ≠ 0
    · -- the line slice is exhausted: the source refreshes it, then copies
      obtain ⟨e1, e2, e3⟩ := sState_stale P0 y0 X W k hW hst
      obtain ⟨f, rfl⟩ : ∃ f, fuel = f + 2 := ⟨fuel - 2, by omega⟩
      have hdlen : ((P.drop k).take n).length = n := by
        rw [List.length_take, List.length_drop, hP]
        omega
      obtain ⟨b, t, hbt⟩ : ∃ b t, (P.drop k).take n = b :: t := by
        cases e : (P.drop k).take n with
        | nil => rw [e] at hdlen; simp at hdlen; omega
        | cons b t => exact ⟨b, t, rfl⟩
      rw [hbt]
      simp only [innerGo]
      rw [e3, if_pos rfl, if_neg hW.ne']
      rw [if_pos (show sFbOff P0 y0 W k + P0 + X + W ≤ fbLen by omega)]
      rw [e2, e1, ← hbt]
      rw [if_neg hW.ne', hdlen]
      -- the expanded copy step: the second loop iteration copies min W n bytes
      have hcpos2 : 0 < min W n := by omega
      have hcW : k % W + min W n ≤ W := by
        rw [hst.1]
        omega
      have htake : ((P.drop k).take n).take (min W n) = (P.drop k).take (min W n) := by
        rw [List.take_take]
        congr 1
        omega
      have hsrclen : ((P.drop k).take (min W n)).length = min W n := by
        rw [List.length_take, List.length_drop, hP]
        omega
      have hdropc : ((P.drop k).take n).drop (min W n)
          = (P.drop (k + min W n)).take (n - min W n) := by
        rw [List.drop_take, List.drop_drop]
      rw [htake, hdropc,
        writeBytes_eq_writeSeq P0 y0 X W _ k _ (by rw [hsrclen]; exact hcW),
        ← writeSeq_take_extend P0 y0 X W P fb0 k (min W n) (by omega)]
      obtain ⟨f1, f2, f3⟩ := sState_after_chunk P0 y0 X W k (min W n) hW hcpos2 hcW
      rw [hst.1, Nat.sub_zero] at f3
      rw [← f1, ← f2, ← f3]
      have hih := ih f (by omega) (n - min W n) (k + min W n) (by omega) (by omega)
      have harg2 : k + min W n + (n - min W n) = k + n := by omega
      rw [harg2] at hih
      exact hih
    · -- the line slice still has room: copy directly
      obtain ⟨e1, e2, e3⟩ := sState_fresh P0 y0 X W k hst
      obtain ⟨f, rfl⟩ : ∃ f, fuel = f + 1 := ⟨fuel - 1, by omega⟩
      rw [e1, e2, e3]
      rw [innerGo_copy_step P0 y0 X W h0 fbLen P fb0 hW hP f n k hn hkn
        _ _ _ rfl rfl rfl]
      have hih := ih f (by omega) (n - min (W - k % W) n)
        (k + min (W - k % W) n) (by omega) (by omega)
      rw [harg] at hih
      exact hih


theorem sState_zero (P0 y0 X W : Nat) :
    sFbOff P0 y0 W 0 = P0 * y0 ∧ sLineAbs P0 y0 X W 0 = P0 * y0 + X ∧
    sLineRem W 0 = W := by
  unfold sFbOff sLineAbs sLineRem
  have hcond : ¬(0 % W = 0 ∧ (0 : Nat) ≠ 0) := by simp
  rw [if_neg hcond, if_neg hcond, if_neg hcond, Nat.zero_div, Nat.add_zero,
    Nat.zero_mod, Nat.sub_zero]
  exact ⟨rfl, rfl, rfl⟩

theorem outerLoop_sim (P0 y0 X W h0 fbLen : Nat) (P fb0 : List Nat)
    (hW : 0 < W) (hP : P.length = h0 * W)
    (hbound : P0 * (y0 + h0 - 1) + X + W ≤ fbLen) :
    ∀ (packets : List (List Nat)) (k : Nat),
      packets.flatten = P.drop k → k ≤ h0 * W →
      outerLoop P0 X W fbLen packets (h0 * W - k)
          (sFbOff P0 y0 W k) (sLineAbs P0 y0 X W k) (sLineRem W k)
          (writeSeq P0 y0 X W 0 (P.take k) fb0)
        = .ok (writeSeq P0 y0 X W 0 P fb0) := by
  intro packets
  induction packets with
  | nil =>
    intro k hflat hk
    have hdk : (P.drop k).length = 0 := by rw [← hflat]; rfl
    rw [List.length_drop, hP] at hdk
    simp only [outerLoop]
    rw [if_pos (by omega)]
    congr 1
    rw [List.take_of_length_le (by omega)]
  | cons data rest ih =>
    intro k hflat hk
    have hlen_flat := congrArg List.length hflat
    simp only [List.flatten_cons, List.length_append, List.length_drop, hP] at hlen_flat
    simp only [outerLoop]
    by_cases hrem : h0 * W - k = 0
    · rw [if_pos hrem]
      congr 1
      rw [List.take_of_length_le (by omega)]
    · rw [if_neg hrem]
      rw [if_pos (show data.length ≤ h0 * W - k by omega)]
      unfold innerLoop
      set n := data.length with hn
      have hdata : data = (P.drop k).take n := by
        rw [← hflat]
        exact (List.take_left data rest.flatten).symm
      rw [hdata]
      rw [innerGo_sim P0 y0 X W h0 fbLen P fb0 hW hP hbound (2 * n + 1) n k
        (by omega) (le_refl _)]
      dsimp only
      have harg : h0 * W - k - n = h0 * W - (k + n) := by omega
      rw [harg]
      have hflat2 : rest.flatten = P.drop (k + n) := by
        have h1 : rest.flatten = (data ++ rest.flatten).drop data.length :=
          (List.drop_left data rest.flatten).symm
        rw [show data ++ rest.flatten = P.drop k from by
            rw [← List.flatten_cons]; exact hflat, ← hn] at h1
        rw [h1, List.drop_drop]
      exact ih (k + n) hflat2 (by omega)

theorem recvStreaming_ok (info : SetBuffer) (fb : List Nat) (fbPitch : Nat)
    (packets : List (List Nat))
    (hw : 0 < info.width) (hh : 0 < info.height)
    (hlen : info.length
      = info.width * info.height * (info.length / info.width / info.height))
    (hjoin : (packets.flatten).length = info.length)
    (hbound : (info.y + info.height - 1) * fbPitch
        + (info.x + info.width) * (info.length / info.width / info.height) ≤ fb.length) :
    recvBufferStreaming info fb fbPitch packets
      = .ok (writeSeq fbPitch info.y
          (info.length / info.width / info.height * info.x)
          (info.length / info.width / info.height * info.width)
          0 packets.flatten fb) := by
  set bpp := info.length / info.width / info.height with hbpp
  unfold recvBufferStreaming
  rw [← hbpp]
  rw [if_neg (by push_neg; omega)]
  rcases Nat.eq_zero_or_pos bpp with hbpp0 | hbpp0
  · have hlen0 : info.length = 0 := by rw [hlen, hbpp0, Nat.mul_zero]
    have hfl : packets.flatten = [] := List.length_eq_zero.mp (by omega)
    rw [hbpp0]
    simp only [Nat.zero_mul, Nat.mul_zero, Nat.add_zero]
    rw [if_pos ?init]
    case init =>
      have h3 := hbound
      rw [hbpp0, Nat.mul_zero, Nat.add_zero] at h3
      have h4 : info.y * fbPitch ≤ (info.y + info.height - 1) * fbPitch :=
        Nat.mul_le_mul_right fbPitch (by omega)
      have h5 : fbPitch * info.y = info.y * fbPitch := Nat.mul_comm _ _
      omega
    rw [hlen0, hfl]
    cases packets with
    | nil => rfl
    | cons d r => rfl
  · have hWpos : 0 < bpp * info.width := Nat.mul_pos hbpp0 hw
    have hP : (packets.flatten).length = info.height * (bpp * info.width) := by
      rw [hjoin, hlen]
      ring
    have hbound2 : fbPitch * (info.y + info.height - 1) + bpp * info.x
        + bpp * info.width ≤ fb.length := by
      have hc : (info.y + info.height - 1) * fbPitch
          = fbPitch * (info.y + info.height - 1) := Nat.mul_comm _ _
      have hd : (info.x + info.width) * bpp = bpp * info.x + bpp * info.width := by ring
      omega
    rw [if_pos ?hinit]
    case hinit =>
      have h4 : fbPitch * info.y ≤ fbPitch * (info.y + info.height - 1) :=
        Nat.mul_le_mul_left fbPitch (by omega)
      omega
    have hsim := outerLoop_sim fbPitch info.y (bpp * info.x) (bpp * info.width)
      info.height fb.length packets.flatten fb hWpos hP hbound2 packets 0
      (by rw [List.drop_zero]) (by omega)
    obtain ⟨z1, z2, z3⟩ := sState_zero fbPitch info.y (bpp * info.x) (bpp * info.width)
    rw [z1, z2, z3, Nat.sub_zero, List.take_zero] at hsim
    have hL : info.length = info.height * (bpp * info.width) := by
      rw [hlen]
      ring
    rw [hL]
    simp only [writeSeq] at hsim
    exact hsim


theorem nth_replicate (v : Nat) : ∀ (n j : Nat),
    nth (List.replicate n v) j = if j < n then some v else none := by
  intro n
  induction n with
  | zero =>
    intro j
    rw [if_neg (Nat.not_lt_zero j)]
    cases j <;> rfl
  | succ n ih =>
    intro j
    cases j with
    | zero =>
      rw [if_pos (Nat.succ_pos n)]
      rfl
    | succ j =>
      show nth (List.replicate n v) j = if j + 1 < n + 1 then some v else none
      rw [ih j]
      rcases Nat.lt_or_ge j n with h | h
      · rw [if_pos h, if_pos (by omega)]
      · rw [if_neg (by omega), if_neg (by omega)]


/-! Claims C1, C2 (amended), C3, C8, C9 -/

/-- C9 (amended): under an uncompressed `SetBuffer` with consistent
dimensions, a packet stream delivering exactly `length` bytes, a rectangle
inside the surface, and — the amendment — a `y + height` sum that stays
inside the u32 range (so the `as usize` cast at src/gadget/src/lib.rs:358
does not wrap), the accumulate-then-blit engine and the streaming per-line
engine leave identical byte contents in the destination surface (and both
succeed).  Without the no-wrap condition the engines disagree: see the
counterexample. -/
theorem claim_C9_implementations_agree (d : List Nat → Nat → Option (List Nat))
    (info : SetBuffer) (fb : List Nat) (fbPitch : Nat) (packets : List (List Nat))
    (hcomp : info.compression = 0) (hw : 0 < info.width) (hh : 0 < info.height)
    (hlen : info.length
      = info.width * info.height * (info.length / info.width / info.height))
    (hjoin : (packets.flatten).length = info.length)
    (hbound : (info.y + info.height - 1) * fbPitch
        + (info.x + info.width) * (info.length / info.width / info.height) ≤ fb.length)
    (hnowrap : info.y + info.height < 4294967296) :
    recvBufferStreaming info fb fbPitch packets
      = recvBufferGadget d info fb fbPitch packets ∧
    ∃ R, recvBufferStreaming info fb fbPitch packets = .ok R := by
  rw [recvStreaming_ok info fb fbPitch packets hw hh hlen hjoin hbound,
    recvGadget_ok d info fb fbPitch packets hcomp hw hh hlen hjoin hbound hnowrap]
  constructor
  · rw [Nat.mul_comm (info.length / info.width / info.height) info.x,
      Nat.mul_comm (info.length / info.width / info.height) info.width]
  · exact ⟨_, rfl⟩

theorem claim_C9_witness :
    (recvBufferStreaming ⟨1, 1, 2, 2, 4, 0, 0⟩ (List.replicate 12 0) 4 [[1, 2], [3], [4]]
      = recvBufferGadget (fun _ _ => none) ⟨1, 1, 2, 2, 4, 0, 0⟩ (List.replicate 12 0) 4
          [[1, 2], [3], [4]]) ∧
    ∃ R, recvBufferStreaming ⟨1, 1, 2, 2, 4, 0, 0⟩ (List.replicate 12 0) 4
        [[1, 2], [3], [4]] = .ok R :=
  claim_C9_implementations_agree (fun _ _ => none) ⟨1, 1, 2, 2, 4, 0, 0⟩
    (List.replicate 12 0) 4 [[1, 2], [3], [4]] (by decide) (by decide) (by decide)
    (by decide) (by decide) (by decide) (by decide)

/-- C9 counterexample, refuting the claim as originally stated: with
`y = 2^32 - 1` and `height = 2` the u32 sum `y + height` wraps to 1, so the
accumulate-then-blit engine's row loop runs zero times and returns the
surface untouched, while the streaming engine (pure `usize` arithmetic)
writes both payload bytes — the two engines return different surfaces even
though every hypothesis of the original claim holds. -/
theorem claim_C9_counterexample :
    ((⟨0, 4294967295, 1, 2, 2, 0, 0⟩ : SetBuffer).compression = 0 ∧
      (0:Nat) < 1 ∧ (0:Nat) < 2 ∧ (2:Nat) = 1 * 2 * (2 / 1 / 2) ∧
      (([[7, 7]] : List (List Nat)).flatten).length = 2 ∧
      (4294967295 + 2 - 1) * 1 + (0 + 1) * (2 / 1 / 2)
        ≤ (List.replicate 4294967297 (0:Nat)).length) ∧
    recvBufferStreaming ⟨0, 4294967295, 1, 2, 2, 0, 0⟩
        (List.replicate 4294967297 0) 1 [[7, 7]]
      ≠ recvBufferGadget (fun _ _ => none) ⟨0, 4294967295, 1, 2, 2, 0, 0⟩
        (List.replicate 4294967297 0) 1 [[7, 7]] := by
  refine ⟨⟨rfl, by norm_num, by norm_num, by norm_num, by norm_num,
    by rw [List.length_replicate]⟩, ?_⟩
  have hgadget : recvBufferGadget (fun _ _ => none)
      ⟨0, 4294967295, 1, 2, 2, 0, 0⟩ (List.replicate 4294967297 0) 1 [[7, 7]]
      = .ok (List.replicate 4294967297 0) := rfl
  have hstream := recvStreaming_ok ⟨0, 4294967295, 1, 2, 2, 0, 0⟩
    (List.replicate 4294967297 0) 1 [[7, 7]] (by norm_num) (by norm_num)
    (by norm_num) (by norm_num) (by rw [List.length_replicate]; norm_num)
  rw [hstream, hgadget]
  intro heq
  have hR := RecvResult.ok.inj heq
  have hnth := congrArg (fun l => nth l 4294967295) hR
  have hpos : posOf 1 4294967295 (2 / 1 / 2 * 0) (2 / 1 / 2 * 1) (0 + 0)
      = 4294967295 := by
    unfold posOf
    norm_num
  have hhit := nth_writeSeq_hit 1 4294967295 (2 / 1 / 2 * 0) (2 / 1 / 2 * 1)
    (by norm_num) (by norm_num) ([[7, 7]] : List (List Nat)).flatten 0
    (List.replicate 4294967297 0) 0 (by norm_num)
    (by rw [hpos, List.length_replicate]; norm_num)
  rw [hpos] at hhit
  simp only at hnth
  rw [hhit] at hnth
  rw [nth_replicate] at hnth
  rw [if_pos (by norm_num)] at hnth
  exact absurd hnth (by decide)


/-- C1 (amended): for an uncompressed `SetBuffer` with consistent dimensions,
a rectangle inside the surface, and — the amendment — a `y + height` sum that
stays inside the u32 range (the addition at src/gadget/src/lib.rs:358 is
performed in `u32` before the `as usize` cast, so it wraps otherwise),
`recv_buffer` writes row `i` of the source bytes at destination offset
`(y + i) * pitch + x * bpp`, and the resulting surface depends only on the
concatenation of the packets, not on where the packet boundaries fall. -/
theorem claim_C1_rowwise_blit_and_reassembly (d : List Nat → Nat → Option (List Nat))
    (info : SetBuffer) (fb : List Nat) (fbPitch : Nat) (packets : List (List Nat))
    (hcomp : info.compression = 0) (hw : 0 < info.width) (hh : 0 < info.height)
    (hlen : info.length
      = info.width * info.height * (info.length / info.width / info.height))
    (hjoin : (packets.flatten).length = info.length)
    (hbound : (info.y + info.height - 1) * fbPitch
        + (info.x + info.width) * (info.length / info.width / info.height) ≤ fb.length)
    (hpitch : info.width * (info.length / info.width / info.height) ≤ fbPitch)
    (hnowrap : info.y + info.height < 4294967296) :
    ∃ R, recvBufferGadget d info fb fbPitch packets = .ok R ∧
      (∀ i, i < info.height →
        ∀ c, c < info.width * (info.length / info.width / info.height) →
        nth R ((info.y + i) * fbPitch
            + info.x * (info.length / info.width / info.height) + c)
          = nth packets.flatten
              (i * (info.width * (info.length / info.width / info.height)) + c)) ∧
      (∀ packets2 : List (List Nat), packets2.flatten = packets.flatten →
        recvBufferGadget d info fb fbPitch packets2 = .ok R) := by
  set bpp := info.length / info.width / info.height with hbpp
  set W := info.width * bpp with hWdef
  set X := info.x * bpp with hXdef
  refine ⟨writeSeq fbPitch info.y X W 0 packets.flatten fb,
    recvGadget_ok d info fb fbPitch packets hcomp hw hh hlen hjoin hbound hnowrap,
    ?_, ?_⟩
  · intro i hi c hc
    have hW : 0 < W := by omega
    have hkdm : (i * W + c) / W = i ∧ (i * W + c) % W = c := by
      have hsw : i * W + c = c + W * i := by ring
      constructor
      · rw [hsw, Nat.add_mul_div_left _ _ hW, Nat.div_eq_of_lt hc, Nat.zero_add]
      · rw [hsw, Nat.add_mul_mod_self_left, Nat.mod_eq_of_lt hc]
    have hposval : posOf fbPitch info.y X W (i * W + c)
        = (info.y + i) * fbPitch + X + c := by
      unfold posOf
      rw [hkdm.1, hkdm.2, Nat.mul_comm fbPitch (info.y + i)]
    have hstep : (i + 1) * W = i * W + W := by ring
    have hrows : (i + 1) * W ≤ info.height * W := Nat.mul_le_mul_right W (by omega)
    have hflatlen : (packets.flatten).length = info.height * W := by
      rw [hjoin, hlen, hWdef]
      ring
    have hmlt : i * W + c < (packets.flatten).length := by
      rw [hflatlen]
      omega
    have hposlt : posOf fbPitch info.y X W (i * W + c) < fb.length := by
      have h1 := posOf_lt_bound fbPitch info.y X W info.height (i * W + c)
        hW (show i * W + c < info.height * W by omega)
      have h2 : (info.y + info.height - 1) * fbPitch
          = fbPitch * (info.y + info.height - 1) := Nat.mul_comm _ _
      have h3 : (info.x + info.width) * bpp = X + W := by
        rw [hXdef, hWdef]
        ring
      omega
    have hhit := nth_writeSeq_hit fbPitch info.y X W hW hpitch packets.flatten 0 fb
      (i * W + c) hmlt (by simpa using hposlt)
    simp only [Nat.zero_add] at hhit
    rw [hposval] at hhit
    exact hhit
  · intro packets2 h2
    rw [recvGadget_ok d info fb fbPitch packets2 hcomp hw hh hlen
      (by rw [h2]; exact hjoin) hbound hnowrap, h2]

theorem claim_C1_witness :
    ∃ R, recvBufferGadget (fun _ _ => none) ⟨1, 1, 2, 2, 4, 0, 0⟩
        (List.replicate 12 0) 4 [[1, 2], [3], [4]] = .ok R ∧
      (∀ i, i < 2 → ∀ c, c < 2 * (4 / 2 / 2) →
        nth R ((1 + i) * 4 + 1 * (4 / 2 / 2) + c)
          = nth [[1, 2], [3], [4]].flatten (i * (2 * (4 / 2 / 2)) + c)) ∧
      (∀ packets2 : List (List Nat), packets2.flatten = [[1, 2], [3], [4]].flatten →
        recvBufferGadget (fun _ _ => none) ⟨1, 1, 2, 2, 4, 0, 0⟩
          (List.replicate 12 0) 4 packets2 = .ok R) :=
  claim_C1_rowwise_blit_and_reassembly (fun _ _ => none) ⟨1, 1, 2, 2, 4, 0, 0⟩
    (List.replicate 12 0) 4 [[1, 2], [3], [4]] (by decide) (by decide) (by decide)
    (by decide) (by decide) (by decide) (by decide) (by decide)

/-- C1 counterexample, refuting the claim as originally stated (without the
no-wrap condition): with `y = 2^32 - 1` and `height = 2` every hypothesis of
the original claim holds, yet the u32 sum `y + height` at
src/gadget/src/lib.rs:358 wraps to 1, the row loop runs zero times, the
engine returns the surface untouched, and payload row 0 is not found at
destination offset `(y + 0) * pitch + x * bpp`. -/
theorem claim_C1_counterexample :
    ((⟨0, 4294967295, 1, 2, 2, 0, 0⟩ : SetBuffer).compression = 0 ∧
      (0:Nat) < 1 ∧ (0:Nat) < 2 ∧ (2:Nat) = 1 * 2 * (2 / 1 / 2) ∧
      (([[7, 7]] : List (List Nat)).flatten).length = 2 ∧
      (4294967295 + 2 - 1) * 1 + (0 + 1) * (2 / 1 / 2)
        ≤ (List.replicate 4294967297 (0:Nat)).length ∧
      1 * (2 / 1 / 2) ≤ (1:Nat)) ∧
    recvBufferGadget (fun _ _ => none) ⟨0, 4294967295, 1, 2, 2, 0, 0⟩
        (List.replicate 4294967297 0) 1 [[7, 7]]
      = .ok (List.replicate 4294967297 0) ∧
    ¬(∀ i, i < 2 → ∀ c, c < 1 * (2 / 1 / 2) →
        nth (List.replicate 4294967297 (0:Nat))
            ((4294967295 + i) * 1 + 0 * (2 / 1 / 2) + c)
          = nth (([[7, 7]] : List (List Nat)).flatten)
              (i * (1 * (2 / 1 / 2)) + c)) := by
  refine ⟨⟨rfl, by norm_num, by norm_num, by norm_num, by norm_num,
    by rw [List.length_replicate], by norm_num⟩, rfl, ?_⟩
  intro h
  have h2 := h 0 (by norm_num) 0 (by norm_num)
  rw [nth_replicate] at h2
  rw [if_pos (by norm_num)] at h2
  exact absurd h2 (by decide)


/-- C3: for an uncompressed in-bounds blit with `w * bpp < pitch`, every
destination byte outside the rectangle rows keeps its prior value; only the
rectangle rows are modified. -/
theorem claim_C3_outside_rows_unchanged (d : List Nat → Nat → Option (List Nat))
    (info : SetBuffer) (fb : List Nat) (fbPitch : Nat) (packets : List (List Nat))
    (hcomp : info.compression = 0) (hw : 0 < info.width) (hh : 0 < info.height)
    (hlen : info.length
      = info.width * info.height * (info.length / info.width / info.height))
    (hjoin : (packets.flatten).length = info.length)
    (hbound : (info.y + info.height - 1) * fbPitch
        + (info.x + info.width) * (info.length / info.width / info.height) ≤ fb.length)
    (hpitch : info.width * (info.length / info.width / info.height) < fbPitch) :
    ∃ R, recvBufferGadget d info fb fbPitch packets = .ok R ∧ R.length = fb.length ∧
      ∀ j, j < fb.length →
        (∀ i, i < info.height →
          ¬((info.y + i) * fbPitch
              + info.x * (info.length / info.width / info.height) ≤ j ∧
            j < (info.y + i) * fbPitch
              + (info.x + info.width) * (info.length / info.width / info.height))) →
        nth R j = nth fb j := by
  set bpp := info.length / info.width / info.height with hbpp
  set W := info.width * bpp with hWdef
  set X := info.x * bpp with hXdef
  refine ⟨writeSeq fbPitch info.y X W 0
      ((packets.flatten).take
        (((info.y + info.height) % 4294967296 - info.y) * W)) fb,
    recvGadget_result d info fb fbPitch packets hcomp hw hh hlen hjoin hbound,
    length_writeSeq fbPitch info.y X W _ 0 fb, ?_⟩
  intro j hj houtside
  rcases Nat.eq_zero_or_pos W with hW0 | hW
  · rw [hW0, Nat.mul_zero, List.take_zero]
    rfl
  · have hrowle : (info.y + info.height) % 4294967296 - info.y ≤ info.height := by
      have := Nat.mod_le (info.y + info.height) 4294967296
      omega
    apply nth_writeSeq_miss
    intro m hm
    simp only [Nat.zero_add]
    intro heq
    have hmW : m % W < W := Nat.mod_lt _ hW
    have hdiv : m / W < info.height := by
      have h1 : ((packets.flatten).take
          (((info.y + info.height) % 4294967296 - info.y) * W)).length
          ≤ ((info.y + info.height) % 4294967296 - info.y) * W := by
        rw [List.length_take]
        exact Nat.min_le_left _ _
      have h2 : ((info.y + info.height) % 4294967296 - info.y) * W
          ≤ info.height * W := Nat.mul_le_mul_right W hrowle
      exact (Nat.div_lt_iff_lt_mul hW).mpr (by omega)
    apply houtside (m / W) hdiv
    have hcomm : (info.y + m / W) * fbPitch = fbPitch * (info.y + m / W) :=
      Nat.mul_comm _ _
    have hxw : (info.x + info.width) * bpp = X + W := by
      rw [hXdef, hWdef]
      ring
    constructor
    · rw [← heq]
      unfold posOf
      omega
    · rw [← heq]
      unfold posOf
      omega

set_option maxRecDepth 4000 in
theorem claim_C3_witness :
    ∃ R, recvBufferGadget (fun _ _ => none) ⟨10, 5, 4, 2, 16, 0, 0⟩
        (List.replicate 700 0) 100
        [[1, 2, 3, 4, 5, 6, 7, 8, 9, 10, 11, 12, 13, 14, 15, 16]] = .ok R ∧
      R.length = (List.replicate (700 : Nat) (0 : Nat)).length ∧
      ∀ j, j < (List.replicate (700 : Nat) (0 : Nat)).length →
        (∀ i, i < 2 →
          ¬((5 + i) * 100 + 10 * (16 / 4 / 2) ≤ j ∧
            j < (5 + i) * 100 + (10 + 4) * (16 / 4 / 2))) →
        nth R j = nth (List.replicate 700 0) j :=
  claim_C3_outside_rows_unchanged (fun _ _ => none) ⟨10, 5, 4, 2, 16, 0, 0⟩
    (List.replicate 700 0) 100 [[1, 2, 3, 4, 5, 6, 7, 8, 9, 10, 11, 12, 13, 14, 15, 16]]
    (by decide) (by decide) (by decide) (by decide) (by decide) (by decide) (by decide)

/-- C8: under the `SetBuffer` invariant and an in-bounds rectangle, every
framebuffer index read or written by the row-copy loop is in range — the
out-of-bounds branch of the embedded slice indexing (the `none` arm of
`blitLoop`) is unreachable. -/
theorem claim_C8_blit_loop_in_bounds (info : SetBuffer) (buf fb : List Nat)
    (fbPitch : Nat) (hw : 0 < info.width) (hh : 0 < info.height)
    (hlen : info.length
      = info.width * info.height * (info.length / info.width / info.height))
    (hbuf : buf.length = info.length)
    (hbound : (info.y + info.height - 1) * fbPitch
        + (info.x + info.width) * (info.length / info.width / info.height) ≤ fb.length)
    (hpitch : info.width * (info.length / info.width / info.height) ≤ fbPitch) :
    (blitLoop fbPitch (info.x * (info.length / info.width / info.height))
      (info.width * (info.length / info.width / info.height)) buf
      info.height info.y 0 fb).isSome := by
  set bpp := info.length / info.width / info.height with hbpp
  set W := info.width * bpp with hWdef
  set X := info.x * bpp with hXdef
  rcases Nat.eq_zero_or_pos bpp with hbpp0 | hbpp0
  · have hW0 : W = 0 := by rw [hWdef, hbpp0, Nat.mul_zero]
    rw [hW0]
    rw [blitLoop_zero_width fbPitch X buf info.height info.y 0 fb ?rows (by omega)]
    case rows =>
      intro r h1 h2
      have h3 := hbound
      rw [hbpp0, Nat.mul_zero, Nat.add_zero] at h3
      have hX0 : X = 0 := by rw [hXdef, hbpp0, Nat.mul_zero]
      have h4 : r * fbPitch ≤ (info.y + info.height - 1) * fbPitch :=
        Nat.mul_le_mul_right fbPitch (by omega)
      omega
    rfl
  · have hWpos : 0 < W := by rw [hWdef]; exact Nat.mul_pos hw hbpp0
    have hbuf2 : buf.length = info.height * W := by
      rw [hbuf, hlen, hWdef]
      ring
    have hbound2 : fbPitch * (info.y + info.height - 1) + X + W ≤ fb.length := by
      have hc : (info.y + info.height - 1) * fbPitch
          = fbPitch * (info.y + info.height - 1) := Nat.mul_comm _ _
      have hd : (info.x + info.width) * bpp = X + W := by
        rw [hXdef, hWdef]
        ring
      omega
    have hblit := blitLoop_eq_writeSeq fbPitch X W buf info.y fb.length
      hWpos info.height info.y fb le_rfl rfl
      (by
        rw [Nat.sub_self, Nat.zero_mul, Nat.zero_add]
        exact Nat.le_of_eq hbuf2.symm)
      (fun r h1 h2 => by
        have h4 : fbPitch * r ≤ fbPitch * (info.y + info.height - 1) :=
          Nat.mul_le_mul_left fbPitch (by omega)
        omega)
    simp only [Nat.sub_self, Nat.zero_mul, List.drop_zero] at hblit
    rw [hblit]
    rfl

theorem claim_C8_witness :
    (blitLoop 4 (1 * (4 / 2 / 2)) (2 * (4 / 2 / 2)) [1, 2, 3, 4] 2 1 0
      (List.replicate 12 0)).isSome :=
  claim_C8_blit_loop_in_bounds ⟨1, 1, 2, 2, 4, 0, 0⟩ [1, 2, 3, 4]
    (List.replicate 12 0) 4 (by decide) (by decide) (by decide) (by decide)
    (by decide) (by decide)


/-- C2 amended: the accumulate-then-blit engine drains exactly
`gadgetTargetLen info` bytes — `compressed_length` iff compression is active,
else `length` — completing exactly when that many bytes have arrived and
blocking on fewer; the streaming engine completes after exactly `length`
bytes regardless of the compression field. -/
theorem claim_C2_drain_targets :
    (∀ (info : SetBuffer) (packets : List (List Nat)),
      (packets.flatten).length = gadgetTargetLen info →
      drainLoop (gadgetTargetLen info) packets [] = some packets.flatten) ∧
    (∀ (info : SetBuffer) (packets : List (List Nat)),
      (packets.flatten).length < gadgetTargetLen info →
      drainLoop (gadgetTargetLen info) packets [] = none) ∧
    (∀ (info : SetBuffer) (fb : List Nat) (fbPitch : Nat) (packets : List (List Nat)),
      0 < info.width → 0 < info.height →
      info.length = info.width * info.height * (info.length / info.width / info.height) →
      (packets.flatten).length = info.length →
      (info.y + info.height - 1) * fbPitch
        + (info.x + info.width) * (info.length / info.width / info.height) ≤ fb.length →
      ∃ R, recvBufferStreaming info fb fbPitch packets = .ok R) := by
  refine ⟨?_, ?_, ?_⟩
  · intro info packets h
    have hd := drainLoop_exact (gadgetTargetLen info) packets [] (by simp)
      (by simpa using h)
    simpa using hd
  · intro info packets h
    exact drainLoop_short _ packets [] (by simpa using h)
  · intro info fb fbPitch packets hw hh hlen hjoin hbound
    exact ⟨_, recvStreaming_ok info fb fbPitch packets hw hh hlen hjoin hbound⟩

theorem claim_C2_witness :
    drainLoop (gadgetTargetLen ⟨0, 0, 1, 1, 3, 0, 0⟩) [[1, 2], [3]] []
      = some [[1, 2], [3]].flatten ∧
    drainLoop (gadgetTargetLen ⟨0, 0, 1, 1, 3, 1, 5⟩) [[1, 2], [3]] [] = none ∧
    ∃ R, recvBufferStreaming ⟨0, 0, 5, 2, 10, 1, 5⟩ (List.replicate 10 0) 5
      [[1, 2, 3, 4, 5], [6, 7, 8, 9, 10]] = .ok R :=
  ⟨claim_C2_drain_targets.1 ⟨0, 0, 1, 1, 3, 0, 0⟩ [[1, 2], [3]] (by decide),
   claim_C2_drain_targets.2.1 ⟨0, 0, 1, 1, 3, 1, 5⟩ [[1, 2], [3]] (by decide),
   claim_C2_drain_targets.2.2 ⟨0, 0, 5, 2, 10, 1, 5⟩ (List.replicate 10 0) 5
     [[1, 2, 3, 4, 5], [6, 7, 8, 9, 10]] (by decide) (by decide) (by decide)
     (by decide) (by decide)⟩


end Gud
